import Mathlib

/-!
Shallow embedding of the browser dashboard client (static/js/main.js) and
proofs about its behaviour: the id sanitizer, the renderer, the status
poller, the drag-and-drop swap, the API fetch wrapper and the delete flow.
DOM state is modelled as Lean lists and structures; every definition
follows the corresponding JavaScript function line by line.
-/

namespace Dashboard

/-- Characters kept unchanged by sanitizeForId: the regex class
a-z, A-Z, 0-9, hyphen, underscore used in main.js line 46. -/
def isIdChar (c : Char) : Bool :=
  decide (('a' ≤ c ∧ c ≤ 'z') ∨ ('A' ≤ c ∧ c ≤ 'Z') ∨ ('0' ≤ c ∧ c ≤ '9')
    ∨ c = '-' ∨ c = '_')

/-- One step of the global regex replace: a character outside the class
becomes a hyphen, text of main.js line 46. -/
def sanChar (c : Char) : Char :=
  if isIdChar c then c else '-'

/-- sanitizeForId from main.js lines 45-47: replace every character outside
a-z A-Z 0-9 hyphen underscore by a hyphen.  The regex is global and the
replacement is a single character, so it is a character-wise map. -/
def sanitizeForId (s : String) : String :=
  String.mk (s.data.map sanChar)

/-- Two character sequences differ only in characters outside the id class:
position by position they are either equal or both outside the class. -/
def diffOnlyOutsideId : List Char → List Char → Bool
  | [], [] => true
  | a :: as, b :: bs =>
      (a == b || (!isIdChar a && !isIdChar b)) && diffOnlyOutsideId as bs
  | _, _ => false

/-- Mutable per-card DOM state touched by the status poller: the status
span's text and class, the disabled and active classes of the start and
stop buttons, and the title link's href and inline styles. -/
structure CardState where
  statusText : String
  statusClass : String
  startDisabled : Bool
  stopActive : Bool
  href : String
  pointerEvents : String
  cursor : String
deriving DecidableEq, Repr

/-- One rendered card: its data-app-name attribute and its mutable state. -/
structure PageCard where
  name : String
  state : CardState
deriving DecidableEq, Repr

/-- State of a freshly rendered card, from the template in createAppCard
(main.js lines 51-67): status span says Unknown with the unknown class,
neither button class set, link href is the hash placeholder and no inline
styles are set. -/
def initialCardState : CardState :=
  { statusText := "Unknown"
    statusClass := "status status-unknown"
    startDisabled := false
    stopActive := false
    href := "#"
    pointerEvents := ""
    cursor := "" }

/-- Configured application entry as served inside the apps map of the
GET /apps response: a launch path and an optional port. -/
structure AppInfo where
  path : String
  port : Option String
deriving DecidableEq, Repr

/-- createAppCard from main.js lines 49-68.  The card template only uses
the app name (the appInfo parameter is accepted and unused, as in the
source); the element id is card- followed by the sanitized name, carried
implicitly here through the name field. -/
def createAppCard (appName : String) (appInfo : AppInfo) : PageCard :=
  { name := appName, state := initialCardState }

/-- The DOM element id of a card, card- followed by the sanitized app name
(main.js line 52). -/
def cardElemId (c : PageCard) : String :=
  "card-" ++ sanitizeForId c.name

/-- Lookup in the JS object data.apps: the value at a key, when present.
The apps map is modelled as an association list in key insertion order. -/
def lookupApp (apps : List (String × AppInfo)) (appName : String) :
    Option AppInfo :=
  (apps.find? fun p => p.1 == appName).map Prod.snd

/-- Content of the app-list container after updateAppList rebuilds it:
either the centered placeholder paragraph or a sequence of cards. -/
inductive RenderedList where
  | placeholder
  | cards (cs : List PageCard)
deriving DecidableEq, Repr

/-- updateAppList from main.js lines 70-93, success path, as a function of
the decoded response fields: when the order is empty the container gets
the placeholder paragraph, otherwise one card is appended per name in
order whose lookup in the apps map is truthy (present). -/
def updateAppList (apps : List (String × AppInfo)) (order : List String) :
    RenderedList :=
  if order.length = 0 then
    RenderedList.placeholder
  else
    RenderedList.cards
      (order.filterMap fun appName =>
        (lookupApp apps appName).map fun appInfo =>
          createAppCard appName appInfo)

/-- Identities of the rendered cards in document order; the placeholder
renders no cards. -/
def renderedNames : RenderedList → List String
  | RenderedList.placeholder => []
  | RenderedList.cards cs => cs.map PageCard.name

/-- A JavaScript value as it matters for the truthiness tests in main.js:
a number, a string, or a missing field (undefined). -/
inductive JsValue where
  | num (n : Nat)
  | str (s : String)
  | absent
deriving DecidableEq, Repr

/-- JavaScript truthiness for the modelled values: zero, the empty string
and undefined are falsy. -/
def truthy : JsValue → Bool
  | JsValue.num n => n != 0
  | JsValue.str s => s != ""
  | JsValue.absent => false

/-- String interpolation of a JsValue as a JS template literal renders it. -/
def jsToString : JsValue → String
  | JsValue.num n => toString n
  | JsValue.str s => s
  | JsValue.absent => "undefined"

/-- The JS expression v or-else d for an optional string field: the
default is used when the field is missing or empty (falsy). -/
def jsOrString (v : Option String) (d : String) : String :=
  match v with
  | some s => if s = "" then d else s
  | none => d

/-- Per-app entry of the GET /status response: a running flag and a port
field whose JS truthiness the code tests. -/
structure AppStatusData where
  running : Bool
  port : JsValue
deriving DecidableEq, Repr

/-- Per-card effect of updateStatus, main.js lines 111-132: when running,
status says Run, start is disabled and stop active; with a truthy port the
link points at that port on the current host and is clickable, otherwise
only the inline styles are set to non-interactive (the href is left as it
was).  When not running, status says Stop, button classes are cleared and
the link is reset to the hash placeholder and made non-interactive. -/
def applyStatus (host : String) (st : CardState) (d : AppStatusData) :
    CardState :=
  if d.running then
    let st1 := { st with
      statusText := "Run"
      statusClass := "status status-running"
      startDisabled := true
      stopActive := true }
    if truthy d.port then
      { st1 with
        href := "http://" ++ host ++ ":" ++ jsToString d.port
        pointerEvents := "auto"
        cursor := "pointer" }
    else
      { st1 with pointerEvents := "none", cursor := "default" }
  else
    { st with
      statusText := "Stop"
      statusClass := "status status-stopped"
      startDisabled := false
      stopActive := false
      href := "#"
      pointerEvents := "none"
      cursor := "default" }

/-- One iteration of the loop in updateStatus (main.js lines 99-133):
getElementById with id card- followed by the sanitized response key finds
the first card whose own id matches, and only that card is patched; when
no card matches the key is skipped silently. -/
def applyStatusToPage (host : String) (appName : String)
    (d : AppStatusData) : List PageCard → List PageCard
  | [] => []
  | c :: rest =>
      if cardElemId c == "card-" ++ sanitizeForId appName then
        { c with state := applyStatus host c.state d } :: rest
      else
        c :: applyStatusToPage host appName d rest

/-- Success path of updateStatus over a whole response: the keys are
visited in object insertion order and each patches the page in turn. -/
def updateStatusSuccess (host : String)
    (data : List (String × AppStatusData)) (page : List PageCard) :
    List PageCard :=
  data.foldl (fun pg kv => applyStatusToPage host kv.1 kv.2 pg) page

/-- Catch branch of updateStatus (main.js lines 134-140): every element of
class status on the page gets text Unknown and the unknown class; each
card holds exactly one such element, so this maps over all cards. -/
def statusFailureFallback (page : List PageCard) : List PageCard :=
  page.map fun c =>
    { c with state := { c.state with
        statusText := "Unknown"
        statusClass := "status status-unknown" } }

/-- Decoded JSON body of a backend response as used by apiFetch: the
optional error and message string fields. -/
structure JsonBody where
  error : Option String
  message : Option String
deriving DecidableEq, Repr

/-- Outcome of response.json(): a parse failure with the message of the
raised SyntaxError, or a decoded body. -/
inductive BodyParse where
  | parseFail (errMsg : String)
  | parsed (body : JsonBody)
deriving DecidableEq, Repr

/-- Outcome of the underlying fetch call: a network failure with the
message of the raised TypeError, or a response with its ok flag and the
result of reading its body as JSON. -/
inductive FetchResult where
  | netFail (errMsg : String)
  | resp (ok : Bool) (body : BodyParse)
deriving DecidableEq, Repr

/-- apiFetch from main.js lines 4-23 as a function of the fetch outcome: a
network failure propagates the thrown error; a body that is not JSON
propagates the parse error (the json() call happens before the ok test, so
this holds for every status); a non-2xx response with a JSON body throws
the body's error field, or the fixed generic message when that field is
falsy; otherwise the body is returned. -/
def apiFetch : FetchResult → Except String JsonBody
  | FetchResult.netFail m => Except.error m
  | FetchResult.resp _ (BodyParse.parseFail m) => Except.error m
  | FetchResult.resp ok (BodyParse.parsed b) =>
      if ok = false then
        Except.error (jsOrString b.error "An unknown error occurred.")
      else
        Except.ok b

/-- Final content of the shared message box after one apiFetch call: the
box is hidden on entry; an error shows Error: followed by the message; a
success shows the body's message field when truthy, else stays hidden. -/
def apiFetchNotice (r : FetchResult) : Option String :=
  match apiFetch r with
  | Except.error m => some ("Error: " ++ m)
  | Except.ok b =>
      match b.message with
      | some s => if s = "" then none else some s
      | none => none

/-- Externally visible effects of one deleteApp invocation: the HTTP
requests issued (method and URL), whether updateAppList was invoked to
refresh the list, and the final message-box content. -/
structure DeleteEffects where
  requests : List (String × String)
  reloadedList : Bool
  notice : Option String
deriving DecidableEq, Repr

/-- deleteApp from main.js lines 32-41 as a function of the confirm dialog
result and the fetch outcome: a declined confirm returns before any other
statement runs; otherwise the POST delete request is issued through
apiFetch and the list is refreshed only on success. -/
def deleteApp (secret : String) (appName : String) (confirmResult : Bool)
    (outcome : FetchResult) : DeleteEffects :=
  if !confirmResult then
    { requests := [], reloadedList := false, notice := none }
  else
    { requests := [("POST", "/" ++ secret ++ "/delete/" ++ appName)]
      reloadedList := (apiFetch outcome).isOk
      notice := apiFetchNotice outcome }

/-- nextSibling of a node inside a child list: the element directly after
the first occurrence of the node, when there is one. -/
def nextSibling {α : Type} [DecidableEq α] : List α → α → Option α
  | [], _ => none
  | a :: rest, x => if a = x then rest.head? else nextSibling rest x

/-- Insertion of a detached node directly before the first occurrence of a
reference node in a child list; with no occurrence the node goes to the
end. -/
def insertBeforeRef {α : Type} [DecidableEq α] :
    List α → α → α → List α
  | [], node, _ => [node]
  | a :: rest, node, r =>
      if a = r then node :: a :: rest
      else a :: insertBeforeRef rest node r

/-- DOM Node.insertBefore on a child list: the node is removed from its
current position and inserted before the reference child, at the end when
the reference is null.  Per the DOM pre-insertion algorithm, a reference
equal to the node itself is first replaced by the node's next sibling. -/
def insertBefore {α : Type} [DecidableEq α] (l : List α) (node : α)
    (ref : Option α) : List α :=
  match ref with
  | none => l.erase node ++ [node]
  | some r =>
      if r = node then
        match nextSibling l node with
        | none => l.erase node ++ [node]
        | some r2 => insertBeforeRef (l.erase node) node r2
      else
        insertBeforeRef (l.erase node) node r

/-- Drop handler of initDragAndDrop, main.js lines 193-205, on the child
list of the app-list container: both next siblings are read first, then
the dragged item is inserted before the drop target's old next sibling and
the drop target before the dragged item's old next sibling. -/
def dropHandler {α : Type} [DecidableEq α] (l : List α)
    (draggedItem dropTarget : α) : List α :=
  let draggedNext := nextSibling l draggedItem
  let dropTargetNext := nextSibling l dropTarget
  let parent1 := insertBefore l draggedItem dropTargetNext
  insertBefore parent1 dropTarget draggedNext

/-- Order posted to save-order after a drop (main.js line 205): the
data-app-name attributes of the cards read in their current DOM order. -/
def readNewOrder (l : List PageCard) : List String :=
  l.map PageCard.name

/-- Continuation of the drop handler around the save-order call (main.js
lines 207-215): on success the swapped DOM stays; on failure the handler
only calls updateAppList, so the container is rebuilt from the server's
GET /apps response. -/
def dropPersistFlow (swappedDom : List PageCard) (saveResult : FetchResult)
    (serverApps : List (String × AppInfo)) (serverOrder : List String) :
    RenderedList :=
  match apiFetch saveResult with
  | Except.ok _ => RenderedList.cards swappedDom
  | Except.error _ => updateAppList serverApps serverOrder

/-- Lists that differ only in characters outside the id class are mapped to
the same list by the per-character sanitizer. -/
theorem map_sanChar_eq_of_diffOnlyOutsideId :
    ∀ as bs : List Char, diffOnlyOutsideId as bs = true →
      as.map sanChar = bs.map sanChar := by
  intro as
  induction as with
  | nil =>
      intro bs h
      cases bs with
      | nil => rfl
      | cons b bs => simp [diffOnlyOutsideId] at h
  | cons a as ih =>
      intro bs h
      cases bs with
      | nil => simp [diffOnlyOutsideId] at h
      | cons b bs =>
          simp only [diffOnlyOutsideId, Bool.and_eq_true, Bool.or_eq_true,
            beq_iff_eq] at h
          obtain ⟨hab, hrest⟩ := h
          have htail := ih bs hrest
          rcases hab with heq | ⟨ha, hb⟩
          · simp [List.map_cons, heq, htail]
          · simp only [List.map_cons, htail, List.cons.injEq, and_true]
            simp only [Bool.not_eq_true'] at ha hb
            simp [sanChar, ha, hb]

section DragDropLemmas

variable {α : Type} [DecidableEq α]

/-- nextSibling of the head of a list is the head of the tail. -/
theorem nextSibling_cons_self (x : α) (t : List α) :
    nextSibling (x :: t) x = t.head? := by
  simp [nextSibling]

/-- nextSibling skips a head that is not the searched node. -/
theorem nextSibling_cons_ne (a z : α) (t : List α) (h : a ≠ z) :
    nextSibling (a :: t) z = nextSibling t z := by
  simp [nextSibling, h]

/-- nextSibling skips a whole prefix not containing the searched node. -/
theorem nextSibling_append_left (P t : List α) (z : α) (h : z ∉ P) :
    nextSibling (P ++ t) z = nextSibling t z := by
  induction P with
  | nil => rfl
  | cons a P ih =>
      have haz : a ≠ z := by
        rintro rfl
        exact h (List.mem_cons_self _ _)
      have h' : z ∉ P := fun hm => h (List.mem_cons_of_mem _ hm)
      rw [List.cons_append, nextSibling_cons_ne _ _ _ haz, ih h']

/-- insertBeforeRef at a head equal to the reference puts the node first. -/
theorem insertBeforeRef_cons_self (r n : α) (t : List α) :
    insertBeforeRef (r :: t) n r = n :: r :: t := by
  simp [insertBeforeRef]

/-- insertBeforeRef skips a head different from the reference. -/
theorem insertBeforeRef_cons_ne (a n r : α) (t : List α) (h : a ≠ r) :
    insertBeforeRef (a :: t) n r = a :: insertBeforeRef t n r := by
  simp [insertBeforeRef, h]

/-- insertBeforeRef skips a whole prefix not containing the reference. -/
theorem insertBeforeRef_append_left (P t : List α) (n r : α) (h : r ∉ P) :
    insertBeforeRef (P ++ t) n r = P ++ insertBeforeRef t n r := by
  induction P with
  | nil => rfl
  | cons a P ih =>
      have har : a ≠ r := by
        rintro rfl
        exact h (List.mem_cons_self _ _)
      have h' : r ∉ P := fun hm => h (List.mem_cons_of_mem _ hm)
      rw [List.cons_append, insertBeforeRef_cons_ne _ _ _ _ har, ih h',
        List.cons_append]

/-- insertBefore with a null reference appends the detached node. -/
theorem insertBefore_none (l : List α) (node : α) :
    insertBefore l node none = l.erase node ++ [node] := rfl

/-- insertBefore with a reference distinct from the node inserts the
detached node before the reference. -/
theorem insertBefore_some_ne (l : List α) (node r : α) (h : r ≠ node) :
    insertBefore l node (some r) = insertBeforeRef (l.erase node) node r := by
  simp [insertBefore, h]

/-- insertBefore of a node before itself, when the node has no next
sibling: the node is appended, leaving a permutationally equal list. -/
theorem insertBefore_self_none (l : List α) (node : α)
    (h : nextSibling l node = none) :
    insertBefore l node (some node) = l.erase node ++ [node] := by
  simp [insertBefore, h]

/-- insertBefore of a node before itself, when the node has a next
sibling: the detached node is inserted before that sibling. -/
theorem insertBefore_self_some (l : List α) (node r2 : α)
    (h : nextSibling l node = some r2) :
    insertBefore l node (some node) = insertBeforeRef (l.erase node) node r2 := by
  simp [insertBefore, h]

/-- Dropping a dragged card that sits before the drop target swaps exactly
the two cards. -/
theorem dropHandler_swap_before (A B C : List α) (x y : α)
    (hnd : (A ++ x :: (B ++ y :: C)).Nodup) :
    dropHandler (A ++ x :: (B ++ y :: C)) x y = A ++ y :: (B ++ x :: C) := by
  rw [List.nodup_append] at hnd
  obtain ⟨hA, hcons, hdisj⟩ := hnd
  rw [List.nodup_cons] at hcons
  obtain ⟨hxmem, hBC⟩ := hcons
  rw [List.nodup_append] at hBC
  obtain ⟨hB, hyCnd, hdisjBC⟩ := hBC
  rw [List.nodup_cons] at hyCnd
  obtain ⟨hymem, hC⟩ := hyCnd
  have hxA : x ∉ A := fun h => hdisj h (List.mem_cons_self _ _)
  have hyA : y ∉ A := fun h =>
    hdisj h (List.mem_cons_of_mem _
      (List.mem_append_right _ (List.mem_cons_self _ _)))
  have hxy : x ≠ y := fun h =>
    hxmem (List.mem_append_right _ (h ▸ List.mem_cons_self y C))
  have hxB : x ∉ B := fun h => hxmem (List.mem_append_left _ h)
  have hxC : x ∉ C := fun h =>
    hxmem (List.mem_append_right _ (List.mem_cons_of_mem _ h))
  have hyB : y ∉ B := fun h => hdisjBC h (List.mem_cons_self _ _)
  have dn : nextSibling (A ++ x :: (B ++ y :: C)) x = (B ++ y :: C).head? := by
    rw [nextSibling_append_left _ _ _ hxA, nextSibling_cons_self]
  have tn : nextSibling (A ++ x :: (B ++ y :: C)) y = C.head? := by
    rw [nextSibling_append_left _ _ _ hyA, nextSibling_cons_ne _ _ _ hxy,
      nextSibling_append_left _ _ _ hyB, nextSibling_cons_self]
  have herx : (A ++ x :: (B ++ y :: C)).erase x = A ++ (B ++ y :: C) := by
    rw [List.erase_append_right _ hxA, List.erase_cons_head]
  have hp1 : insertBefore (A ++ x :: (B ++ y :: C)) x C.head?
      = A ++ (B ++ y :: x :: C) := by
    cases C with
    | nil =>
        rw [List.head?_nil, insertBefore_none, herx]
        simp
    | cons c C' =>
        have hcx : c ≠ x := by
          rintro rfl
          exact hxC (List.mem_cons_self _ _)
        have hcA : c ∉ A := fun h =>
          hdisj h (List.mem_cons_of_mem _ (List.mem_append_right _
            (List.mem_cons_of_mem _ (List.mem_cons_self _ _))))
        have hcB : c ∉ B := fun h =>
          hdisjBC h (List.mem_cons_of_mem _ (List.mem_cons_self _ _))
        have hyc : y ≠ c := by
          rintro rfl
          exact hymem (List.mem_cons_self _ _)
        rw [List.head?_cons, insertBefore_some_ne _ _ _ hcx, herx,
          insertBeforeRef_append_left _ _ _ _ hcA,
          insertBeforeRef_append_left _ _ _ _ hcB,
          insertBeforeRef_cons_ne _ _ _ _ hyc, insertBeforeRef_cons_self]
  show insertBefore
      (insertBefore (A ++ x :: (B ++ y :: C)) x
        (nextSibling (A ++ x :: (B ++ y :: C)) y)) y
      (nextSibling (A ++ x :: (B ++ y :: C)) x) = A ++ y :: (B ++ x :: C)
  rw [dn, tn, hp1]
  cases B with
  | nil =>
      simp only [List.nil_append, List.head?_cons]
      have hns : nextSibling (A ++ y :: x :: C) y = some x := by
        rw [nextSibling_append_left _ _ _ hyA, nextSibling_cons_self,
          List.head?_cons]
      rw [insertBefore_self_some _ _ _ hns, List.erase_append_right _ hyA,
        List.erase_cons_head, insertBeforeRef_append_left _ _ _ _ hxA,
        insertBeforeRef_cons_self]
  | cons b B' =>
      have hby : b ≠ y := by
        rintro rfl
        exact hyB (List.mem_cons_self _ _)
      have hbA : b ∉ A := fun h =>
        hdisj h (List.mem_cons_of_mem _
          (List.mem_append_left _ (List.mem_cons_self _ _)))
      have hyB' : y ∉ B' := fun h => hyB (List.mem_cons_of_mem _ h)
      simp only [List.cons_append, List.head?_cons]
      rw [insertBefore_some_ne _ _ _ hby, List.erase_append_right _ hyA,
        List.erase_cons_tail (by simpa using hby),
        List.erase_append_right _ hyB', List.erase_cons_head,
        insertBeforeRef_append_left _ _ _ _ hbA, insertBeforeRef_cons_self]

/-- Dropping a dragged card that sits after the drop target swaps exactly
the two cards. -/
theorem dropHandler_swap_after (A B C : List α) (x y : α)
    (hnd : (A ++ y :: (B ++ x :: C)).Nodup) :
    dropHandler (A ++ y :: (B ++ x :: C)) x y = A ++ x :: (B ++ y :: C) := by
  rw [List.nodup_append] at hnd
  obtain ⟨hA, hcons, hdisj⟩ := hnd
  rw [List.nodup_cons] at hcons
  obtain ⟨hymem, hBC⟩ := hcons
  rw [List.nodup_append] at hBC
  obtain ⟨hB, hxCnd, hdisjBC⟩ := hBC
  rw [List.nodup_cons] at hxCnd
  obtain ⟨hxmem, hC⟩ := hxCnd
  have hyA : y ∉ A := fun h => hdisj h (List.mem_cons_self _ _)
  have hxA : x ∉ A := fun h =>
    hdisj h (List.mem_cons_of_mem _
      (List.mem_append_right _ (List.mem_cons_self _ _)))
  have hyx : y ≠ x := fun h =>
    hymem (List.mem_append_right _ (h ▸ List.mem_cons_self x C))
  have hyB : y ∉ B := fun h => hymem (List.mem_append_left _ h)
  have hyC : y ∉ C := fun h =>
    hymem (List.mem_append_right _ (List.mem_cons_of_mem _ h))
  have hxB : x ∉ B := fun h => hdisjBC h (List.mem_cons_self _ _)
  have dn : nextSibling (A ++ y :: (B ++ x :: C)) x = C.head? := by
    rw [nextSibling_append_left _ _ _ hxA, nextSibling_cons_ne _ _ _ hyx,
      nextSibling_append_left _ _ _ hxB, nextSibling_cons_self]
  have tn : nextSibling (A ++ y :: (B ++ x :: C)) y = (B ++ x :: C).head? := by
    rw [nextSibling_append_left _ _ _ hyA, nextSibling_cons_self]
  have herx : (A ++ y :: (B ++ x :: C)).erase x = A ++ y :: (B ++ C) := by
    rw [List.erase_append_right _ hxA,
      List.erase_cons_tail (by simpa using hyx),
      List.erase_append_right _ hxB, List.erase_cons_head]
  have hp1 : insertBefore (A ++ y :: (B ++ x :: C)) x (B ++ x :: C).head?
      = A ++ y :: x :: (B ++ C) := by
    cases B with
    | nil =>
        simp only [List.nil_append, List.head?_cons]
        simp only [List.nil_append] at dn herx
        cases C with
        | nil =>
            rw [List.head?_nil] at dn
            rw [insertBefore_self_none _ _ dn, herx]
            simp
        | cons c C' =>
            have hcx : c ≠ x := by
              rintro rfl
              exact hxmem (List.mem_cons_self _ _)
            have hcA : c ∉ A := fun h =>
              hdisj h (List.mem_cons_of_mem _ (List.mem_append_right _
                (List.mem_cons_of_mem _ (List.mem_cons_self _ _))))
            have hyc : y ≠ c := fun h =>
              hyC (h ▸ List.mem_cons_self c C')
            rw [List.head?_cons] at dn
            rw [insertBefore_self_some _ _ _ dn, herx,
              insertBeforeRef_append_left _ _ _ _ hcA,
              insertBeforeRef_cons_ne _ _ _ _ hyc, insertBeforeRef_cons_self]
    | cons b B' =>
        have hbx : b ≠ x := by
          rintro rfl
          exact hxB (List.mem_cons_self _ _)
        have hbA : b ∉ A := fun h =>
          hdisj h (List.mem_cons_of_mem _
            (List.mem_append_left _ (List.mem_cons_self _ _)))
        have hyb : y ≠ b := by
          rintro rfl
          exact hyB (List.mem_cons_self _ _)
        simp only [List.cons_append, List.head?_cons]
        simp only [List.cons_append] at herx
        rw [insertBefore_some_ne _ _ _ hbx, herx,
          insertBeforeRef_append_left _ _ _ _ hbA,
          insertBeforeRef_cons_ne _ _ _ _ hyb, insertBeforeRef_cons_self]
  show insertBefore
      (insertBefore (A ++ y :: (B ++ x :: C)) x
        (nextSibling (A ++ y :: (B ++ x :: C)) y)) y
      (nextSibling (A ++ y :: (B ++ x :: C)) x) = A ++ x :: (B ++ y :: C)
  rw [dn, tn, hp1]
  cases C with
  | nil =>
      rw [List.head?_nil, insertBefore_none, List.erase_append_right _ hyA,
        List.erase_cons_head]
      simp
  | cons c C' =>
      have hyc : y ≠ c := fun h => hyC (h ▸ List.mem_cons_self c C')
      have hcA : c ∉ A := fun h =>
        hdisj h (List.mem_cons_of_mem _ (List.mem_append_right _
          (List.mem_cons_of_mem _ (List.mem_cons_self _ _))))
      have hcB : c ∉ B := fun h =>
        hdisjBC h (List.mem_cons_of_mem _ (List.mem_cons_self _ _))
      have hxc : x ≠ c := by
        rintro rfl
        exact hxmem (List.mem_cons_self _ _)
      rw [List.head?_cons, insertBefore_some_ne _ _ _ (Ne.symm hyc),
        List.erase_append_right _ hyA, List.erase_cons_head,
        insertBeforeRef_append_left _ _ _ _ hcA,
        insertBeforeRef_cons_ne _ _ _ _ hxc,
        insertBeforeRef_append_left _ _ _ _ hcB, insertBeforeRef_cons_self]

end DragDropLemmas

/-- C5 counterexample: the names "a.b" and "a,b" are distinct and differ
only in characters outside the class a-z A-Z 0-9 hyphen underscore, yet
sanitizeForId maps both to the same identifier "a-b".  So sanitizeForId is
not injective on such pairs, refuting the claim. -/
theorem sanitizeForId_not_injective_cex :
    ("a.b" : String) ≠ "a,b"
    ∧ diffOnlyOutsideId ("a.b" : String).data ("a,b" : String).data = true
    ∧ sanitizeForId "a.b" = sanitizeForId "a,b"
    ∧ sanitizeForId "a.b" = "a-b" := by
  refine ⟨by decide, by decide, by decide, by decide⟩

/-- C5 (amended): far from producing distinct identifiers, sanitizeForId
collapses every pair of names that differ only in characters outside the
class a-z A-Z 0-9 hyphen underscore to the SAME identifier, since each such
character is replaced by the fixed character hyphen. -/
theorem sanitizeForId_collapses_outside_diffs (s t : String)
    (h : diffOnlyOutsideId s.data t.data = true) :
    sanitizeForId s = sanitizeForId t := by
  unfold sanitizeForId
  rw [map_sanChar_eq_of_diffOnlyOutsideId s.data t.data h]

/-- Witness for the amended C5 theorem at the concrete pair "x!y", "x?y". -/
theorem sanitizeForId_collapses_outside_diffs_witness :
    diffOnlyOutsideId ("x!y" : String).data ("x?y" : String).data = true
    ∧ sanitizeForId "x!y" = sanitizeForId "x?y" :=
  ⟨by decide, sanitizeForId_collapses_outside_diffs "x!y" "x?y" (by decide)⟩

/-- C1: for every list of cards and every drop of a dragged card onto a
distinct target card (here: any two distinct positions of a duplicate-free
card list, in either relative order), the drop handler produces exactly
the transposition of the two cards — every other card keeps its position,
hence its relative order — and the order posted to save-order equals the
card identities read off that post-swap DOM sequence. -/
theorem dropHandler_transposes (A B C : List PageCard) (x y : PageCard)
    (hnd : (A ++ x :: (B ++ y :: C)).Nodup) :
    dropHandler (A ++ x :: (B ++ y :: C)) x y = A ++ y :: (B ++ x :: C)
    ∧ dropHandler (A ++ x :: (B ++ y :: C)) y x = A ++ y :: (B ++ x :: C)
    ∧ readNewOrder (dropHandler (A ++ x :: (B ++ y :: C)) x y)
        = (A ++ y :: (B ++ x :: C)).map PageCard.name
    ∧ readNewOrder (dropHandler (A ++ x :: (B ++ y :: C)) y x)
        = (A ++ y :: (B ++ x :: C)).map PageCard.name := by
  have h1 := dropHandler_swap_before A B C x y hnd
  have h2 := dropHandler_swap_after A B C y x hnd
  exact ⟨h1, h2, by rw [h1]; rfl, by rw [h2]; rfl⟩

/-- Witness for C1 at a concrete two-card list. -/
theorem dropHandler_transposes_witness :
    (([] ++ PageCard.mk "a" initialCardState
        :: ([] ++ PageCard.mk "b" initialCardState :: [])).Nodup)
    ∧ dropHandler
        ([] ++ PageCard.mk "a" initialCardState
          :: ([] ++ PageCard.mk "b" initialCardState :: []))
        (PageCard.mk "a" initialCardState) (PageCard.mk "b" initialCardState)
      = [] ++ PageCard.mk "b" initialCardState
          :: ([] ++ PageCard.mk "a" initialCardState :: []) :=
  ⟨by decide, (dropHandler_transposes [] [] []
      (PageCard.mk "a" initialCardState) (PageCard.mk "b" initialCardState)
      (by decide)).1⟩

/-- Identities of the cards kept by the renderer's loop: one card per
order entry whose lookup succeeds, in order. -/
theorem map_name_filterMap_cards (apps : List (String × AppInfo)) :
    ∀ order : List String,
      (order.filterMap fun appName =>
        (lookupApp apps appName).map fun appInfo =>
          createAppCard appName appInfo).map PageCard.name
      = order.filter fun n => (lookupApp apps n).isSome := by
  intro order
  induction order with
  | nil => rfl
  | cons a order ih =>
      cases h : lookupApp apps a with
      | none => simp [List.filterMap_cons, List.filter_cons, h, ih]
      | some info =>
          have hname : (createAppCard a info).name = a := rfl
          simp [List.filterMap_cons, List.filter_cons, h, ih, hname]

/-- C2: updateAppList renders exactly the subsequence of the order
restricted to names present in the app map, in the order's sequence; an
empty order renders no cards and shows the placeholder instead. -/
theorem updateAppList_spec (apps : List (String × AppInfo))
    (order : List String) :
    (order = [] → updateAppList apps order = RenderedList.placeholder)
    ∧ (order ≠ [] → ∃ cs : List PageCard,
        updateAppList apps order = RenderedList.cards cs
        ∧ cs.map PageCard.name
            = order.filter fun n => (lookupApp apps n).isSome) := by
  constructor
  · rintro rfl
    rfl
  · intro h
    refine ⟨_, ?_, map_name_filterMap_cards apps order⟩
    unfold updateAppList
    rw [if_neg fun hl => h (List.length_eq_zero.mp hl)]

/-- Witness for C2 at a concrete map and order. -/
theorem updateAppList_spec_witness :
    (["a", "b"] : List String) ≠ []
    ∧ ∃ cs : List PageCard,
        updateAppList [("a", AppInfo.mk "p" none)] ["a", "b"]
          = RenderedList.cards cs
        ∧ cs.map PageCard.name
            = (["a", "b"].filter fun n =>
                (lookupApp [("a", AppInfo.mk "p" none)] n).isSome) :=
  ⟨by decide, (updateAppList_spec [("a", AppInfo.mk "p" none)] ["a", "b"]).2
    (by decide)⟩

/-- Rendered identities of updateAppList in closed form, for reuse. -/
theorem renderedNames_updateAppList (apps : List (String × AppInfo))
    (order : List String) :
    renderedNames (updateAppList apps order)
      = if order.length = 0 then []
        else order.filter fun n => (lookupApp apps n).isSome := by
  unfold updateAppList
  by_cases h : order.length = 0
  · rw [if_pos h, if_pos h]
    rfl
  · rw [if_neg h, if_neg h]
    exact map_name_filterMap_cards apps order

/-- C3: a card of an app reported running with a truthy port gets a
clickable link to that port on the current host; running with a falsy
port makes the link non-interactive; not running makes the link
non-interactive and sets the stopped status text. -/
theorem updateStatus_link_spec (host : String) (st : CardState)
    (d : AppStatusData) :
    (d.running = true → truthy d.port = true →
      (applyStatus host st d).href
          = "http://" ++ host ++ ":" ++ jsToString d.port
        ∧ (applyStatus host st d).pointerEvents = "auto"
        ∧ (applyStatus host st d).cursor = "pointer")
    ∧ (d.running = true → truthy d.port = false →
      (applyStatus host st d).pointerEvents = "none"
        ∧ (applyStatus host st d).cursor = "default")
    ∧ (d.running = false →
      (applyStatus host st d).pointerEvents = "none"
        ∧ (applyStatus host st d).cursor = "default"
        ∧ (applyStatus host st d).statusText = "Stop"
        ∧ (applyStatus host st d).statusClass = "status status-stopped") := by
  obtain ⟨r, p⟩ := d
  refine ⟨fun hr hp => ?_, fun hr hp => ?_, fun hr => ?_⟩
  · subst hr
    simp [applyStatus, hp]
  · subst hr
    simp [applyStatus, hp]
  · subst hr
    simp [applyStatus]

/-- Witness for C3 at the three concrete status inputs of the spec. -/
theorem updateStatus_link_spec_witness :
    (applyStatus "h" initialCardState (AppStatusData.mk true (JsValue.num 8080))).href
        = "http://h:8080"
    ∧ (applyStatus "h" initialCardState (AppStatusData.mk true JsValue.absent)).pointerEvents
        = "none"
    ∧ (applyStatus "h" initialCardState (AppStatusData.mk false JsValue.absent)).statusText
        = "Stop" :=
  ⟨((updateStatus_link_spec "h" initialCardState
      (AppStatusData.mk true (JsValue.num 8080))).1 rfl rfl).1,
   ((updateStatus_link_spec "h" initialCardState
      (AppStatusData.mk true JsValue.absent)).2.1 rfl rfl).1,
   ((updateStatus_link_spec "h" initialCardState
      (AppStatusData.mk false JsValue.absent)).2.2 rfl).2.2.1⟩

/-- C4: the catch branch of updateStatus forces every rendered status
indicator to the unknown state, whatever its prior state was, and touches
nothing else on any card: positionally, every card keeps its identity,
buttons and link, and gets unknown status text and class. -/
theorem statusFallback_spec (page : List PageCard) :
    List.Forall₂ (fun c c' : PageCard =>
      c'.state.statusText = "Unknown"
      ∧ c'.state.statusClass = "status status-unknown"
      ∧ c'.name = c.name
      ∧ c'.state.startDisabled = c.state.startDisabled
      ∧ c'.state.stopActive = c.state.stopActive
      ∧ c'.state.href = c.state.href
      ∧ c'.state.pointerEvents = c.state.pointerEvents
      ∧ c'.state.cursor = c.state.cursor)
      page (statusFailureFallback page) := by
  unfold statusFailureFallback
  rw [List.forall₂_map_right_iff]
  exact List.forall₂_same.mpr fun c _ =>
    ⟨rfl, rfl, rfl, rfl, rfl, rfl, rfl, rfl⟩

/-- C6: when the save-order call fails, the controller does not roll the
swap back locally; it reloads the list, so the final rendering is exactly
the rendering of the server's /apps response — independent of the client's
swapped sequence — and its card identities are the server order filtered
to names present in the server's app map. -/
theorem saveOrder_failure_reload (swapped : List PageCard)
    (r : FetchResult) (apps : List (String × AppInfo))
    (order : List String) (hfail : ∃ m, apiFetch r = Except.error m) :
    dropPersistFlow swapped r apps order = updateAppList apps order
    ∧ (∀ swapped' : List PageCard,
        dropPersistFlow swapped' r apps order
          = dropPersistFlow swapped r apps order)
    ∧ renderedNames (dropPersistFlow swapped r apps order)
        = (if order.length = 0 then []
           else order.filter fun n => (lookupApp apps n).isSome) := by
  obtain ⟨m, hm⟩ := hfail
  have h1 : dropPersistFlow swapped r apps order = updateAppList apps order := by
    unfold dropPersistFlow
    rw [hm]
  refine ⟨h1, fun s' => ?_, ?_⟩
  · unfold dropPersistFlow
    rw [hm]
  · rw [h1, renderedNames_updateAppList]

/-- Witness for C6 at a concrete failed save and server response. -/
theorem saveOrder_failure_reload_witness :
    (∃ m, apiFetch (FetchResult.netFail "boom") = Except.error m)
    ∧ dropPersistFlow [PageCard.mk "a" initialCardState]
        (FetchResult.netFail "boom") [("b", AppInfo.mk "p" none)] ["b"]
      = updateAppList [("b", AppInfo.mk "p" none)] ["b"] :=
  ⟨⟨"boom", rfl⟩, (saveOrder_failure_reload [PageCard.mk "a" initialCardState]
    (FetchResult.netFail "boom") [("b", AppInfo.mk "p" none)] ["b"]
    ⟨"boom", rfl⟩).1⟩

/-- C7: network failure, non-2xx response and non-JSON body all surface as
a thrown error on apiFetch's single failure channel; a non-2xx response
carries the server-provided error message when that field is truthy, and
the fixed generic message otherwise. -/
theorem apiFetch_failure_channel (m s : String) (ok : Bool) (b : JsonBody)
    (msg : Option String) :
    apiFetch (FetchResult.netFail m) = Except.error m
    ∧ apiFetch (FetchResult.resp ok (BodyParse.parseFail m)) = Except.error m
    ∧ apiFetch (FetchResult.resp false (BodyParse.parsed b))
        = Except.error (jsOrString b.error "An unknown error occurred.")
    ∧ apiFetch (FetchResult.resp false (BodyParse.parsed (JsonBody.mk (some s) msg)))
        = Except.error (if s = "" then "An unknown error occurred." else s)
    ∧ apiFetch (FetchResult.resp false (BodyParse.parsed (JsonBody.mk none msg)))
        = Except.error "An unknown error occurred." := by
  refine ⟨rfl, ?_, rfl, rfl, rfl⟩
  cases ok <;> rfl

/-- C8: under updateStatus a running app whose port field is falsy — the
number 0, the empty string, or an absent field — always takes the
running-without-port branch: the three cases produce identical card
states with a non-interactive link, so a legitimate port value of 0 is
indistinguishable from no port at all. -/
theorem runningFalsyPort_indistinguishable (host : String) (st : CardState) :
    applyStatus host st (AppStatusData.mk true (JsValue.num 0))
        = applyStatus host st (AppStatusData.mk true JsValue.absent)
    ∧ applyStatus host st (AppStatusData.mk true (JsValue.str ""))
        = applyStatus host st (AppStatusData.mk true JsValue.absent)
    ∧ (applyStatus host st (AppStatusData.mk true JsValue.absent)).pointerEvents
        = "none"
    ∧ (applyStatus host st (AppStatusData.mk true JsValue.absent)).statusText
        = "Run" :=
  ⟨rfl, rfl, rfl, rfl⟩

/-- Appending on the left is cancellable for strings. -/
theorem string_append_cancel_left {p a b : String} (h : p ++ a = p ++ b) :
    a = b := by
  have hd := congrArg String.data h
  simp only [String.data_append] at hd
  exact String.ext (List.append_cancel_left hd)

/-- One status key leaves every card untouched whose sanitized id differs
from the key's sanitized id. -/
theorem applyStatusToPage_getElem_frame (host n : String)
    (d : AppStatusData) :
    ∀ (pg : List PageCard) (k : Nat),
      (∀ c ∈ pg[k]?, sanitizeForId n ≠ sanitizeForId c.name) →
      (applyStatusToPage host n d pg)[k]? = pg[k]? := by
  intro pg
  induction pg with
  | nil =>
      intro k h
      rfl
  | cons c rest ih =>
      intro k h
      by_cases hc : (cardElemId c == "card-" ++ sanitizeForId n) = true
      · have h1 : cardElemId c = "card-" ++ sanitizeForId n := beq_iff_eq.mp hc
        unfold cardElemId at h1
        have heq : sanitizeForId c.name = sanitizeForId n :=
          string_append_cancel_left h1
        cases k with
        | zero => exact absurd heq.symm (h c (by simp))
        | succ k =>
            simp only [applyStatusToPage, if_pos hc, List.getElem?_cons_succ]
      · cases k with
        | zero =>
            simp only [applyStatusToPage, if_neg hc, List.getElem?_cons_zero]
        | succ k =>
            simp only [applyStatusToPage, if_neg hc, List.getElem?_cons_succ]
            exact ih k fun c' hc' => h c' (by simpa using hc')

/-- C9 (amended): a successful status poll leaves untouched every rendered
card whose sanitized id differs from the sanitized id of every key of the
response.  (As stated the claim is false: a card whose name is absent from
the response can still be modified when some response key sanitizes to the
same id — see the counterexample.) -/
theorem updateStatus_frame (host : String)
    (data : List (String × AppStatusData)) (page : List PageCard) (k : Nat)
    (h : ∀ kv ∈ data, ∀ c ∈ page[k]?,
      sanitizeForId kv.1 ≠ sanitizeForId c.name) :
    (updateStatusSuccess host data page)[k]? = page[k]? := by
  induction data generalizing page with
  | nil => rfl
  | cons kv data ih =>
      have hstep := applyStatusToPage_getElem_frame host kv.1 kv.2 page k
        (h kv (List.mem_cons_self _ _))
      have hrec := ih (applyStatusToPage host kv.1 kv.2 page)
        (fun kv' hkv' c hc => h kv' (List.mem_cons_of_mem _ hkv') c
          (by rw [← hstep]; exact hc))
      calc (updateStatusSuccess host (kv :: data) page)[k]?
          = (updateStatusSuccess host data
              (applyStatusToPage host kv.1 kv.2 page))[k]? := rfl
        _ = (applyStatusToPage host kv.1 kv.2 page)[k]? := hrec
        _ = page[k]? := hstep

/-- C9 counterexample: the card named "a.b" is absent from the status
response whose only key is "a,b", yet the poll modifies it, because both
names sanitize to the id a-b and the card lookup goes through sanitized
ids.  This refutes the claim that cards of absent names stay unchanged. -/
theorem updateStatus_frame_cex :
    ("a.b" ∉ ([("a,b", AppStatusData.mk true JsValue.absent)].map Prod.fst))
    ∧ updateStatusSuccess "h" [("a,b", AppStatusData.mk true JsValue.absent)]
        [PageCard.mk "a.b" initialCardState]
      ≠ [PageCard.mk "a.b" initialCardState] := by
  refine ⟨by decide, by decide⟩

/-- Witness for the amended C9 theorem at a concrete non-colliding pair. -/
theorem updateStatus_frame_witness :
    (∀ kv ∈ [("x", AppStatusData.mk true JsValue.absent)],
      ∀ c ∈ ([PageCard.mk "y" initialCardState])[0]?,
        sanitizeForId kv.1 ≠ sanitizeForId c.name)
    ∧ (updateStatusSuccess "h" [("x", AppStatusData.mk true JsValue.absent)]
        [PageCard.mk "y" initialCardState])[0]?
      = ([PageCard.mk "y" initialCardState])[0]? :=
  ⟨by decide, updateStatus_frame "h" _ _ 0 (by decide)⟩

/-- C10: when the confirm dialog is declined, deleteApp returns before any
other statement: no request is issued, no list refresh happens and the
message box is untouched — for every app name, secret and would-be fetch
outcome. -/
theorem deleteApp_declined (secret appName : String)
    (outcome : FetchResult) :
    deleteApp secret appName false outcome
      = { requests := [], reloadedList := false, notice := none } := rfl

end Dashboard
